import Mathlib

/-!
Shallow embedding of the rtu-sim repository (Rust sources under src/):
  * `mb_stuff.rs`  — the shared Modbus store (coils / holding registers) and
    the server request dispatcher `ExampleService::call`;
  * `test_cases.rs` — the polling controller (`wait_for_running`, `sr_single`,
    `sr_single_early_stop`, `execute_early_stop`);
  * `main.rs` — the exponentially-increasing-delay sweep of the
    `SrEarlyStopAllDelays` scenario in `tui_thread`.

Machine integers (`u16`) are modelled as `Nat`; the claims considered only
involve ranges where no overflow occurs (the one overflow-adjacent claim
carries the no-overflow bound as an explicit hypothesis).  Time is modelled
as a `Nat` count of milliseconds (microseconds for the sweep, which is the
unit the sweep's increments use); reads and writes are instantaneous and
`tokio::time::sleep` advances the clock, which is the idealisation under
which the spec's timing sentences are stated.
-/

namespace RtuSim

/-! ### The shared Modbus store, from `src/mb_stuff.rs`.

The two `HashMap`s are modelled as functions to `Option`; `get_mut` updates
an entry only when it is present, which is exactly `Option.map`. -/

/-- Coil/register offsets from `main.rs` (crate root), used by
`SharedModbusState::new`. -/
def ENABLE_COIL_OFFSET : Nat := 8

/-- See `ENABLE_COIL_OFFSET`. -/
def RUNNING_COIL_OFFSET : Nat := 9

/-- See `ENABLE_COIL_OFFSET`. -/
def INDEX_HREG_OFFSET : Nat := 8

/-- The shared server state: sparse maps from address to value
(`mb_stuff.rs`, `SharedModbusState`). -/
structure SharedModbusState where
  holding_registers : Nat → Option Nat
  coils : Nat → Option Bool

/-- `SharedModbusState::new` (`mb_stuff.rs` lines 15-26): coils seeded at
`ENABLE_COIL_OFFSET` and `RUNNING_COIL_OFFSET` (both `false`), holding
registers seeded at `INDEX_HREG_OFFSET` (value `0`). -/
def SharedModbusState.new : SharedModbusState where
  coils := fun a =>
    if a = ENABLE_COIL_OFFSET then some false
    else if a = RUNNING_COIL_OFFSET then some false
    else none
  holding_registers := fun a =>
    if a = INDEX_HREG_OFFSET then some 0 else none

/-- `SharedModbusState::read_coil`: mapped value, or `false` with a warning
when the address is unmapped.  Never fails. -/
def SharedModbusState.read_coil (s : SharedModbusState) (addr : Nat) : Bool :=
  (s.coils addr).getD false

/-- `SharedModbusState::read_coils`: one element per `i < count`, the mapped
value at `addr + i` or `false` when unmapped.  Never fails. -/
def SharedModbusState.read_coils (s : SharedModbusState) (addr count : Nat) : List Bool :=
  (List.range count).map (fun i => (s.coils (addr + i)).getD false)

/-- `SharedModbusState::write_coil`: update in place when the address is
mapped (`get_mut`), no-op with a warning otherwise. -/
def SharedModbusState.write_coil (s : SharedModbusState) (addr : Nat) (value : Bool) :
    SharedModbusState :=
  { s with coils := fun a =>
      if a = addr then (s.coils a).map (fun _ => value) else s.coils a }

/-- `SharedModbusState::write_coils`: the per-element policy of
`write_coil`, applied at `addr + i` for the `i`-th element. -/
def SharedModbusState.write_coils (s : SharedModbusState) (addr : Nat) :
    List Bool → SharedModbusState
  | [] => s
  | v :: rest => SharedModbusState.write_coils (s.write_coil addr v) (addr + 1) rest

/-- `SharedModbusState::read_holding_registers`: one element per `i < count`,
the mapped value at `addr + i` or `0` with a warning when unmapped.  Never
fails. -/
def SharedModbusState.read_holding_registers (s : SharedModbusState) (addr count : Nat) :
    List Nat :=
  (List.range count).map (fun i => (s.holding_registers (addr + i)).getD 0)

/-- `SharedModbusState::write_holding_register`: update in place when mapped,
no-op with a warning otherwise. -/
def SharedModbusState.write_holding_register (s : SharedModbusState) (addr value : Nat) :
    SharedModbusState :=
  { s with holding_registers := fun a =>
      if a = addr then (s.holding_registers a).map (fun _ => value)
      else s.holding_registers a }

/-- `SharedModbusState::write_holding_registers`: the per-element policy of
`write_holding_register`, applied at `addr + i` for the `i`-th element. -/
def SharedModbusState.write_holding_registers (s : SharedModbusState) (addr : Nat) :
    List Nat → SharedModbusState
  | [] => s
  | v :: rest =>
      SharedModbusState.write_holding_registers (s.write_holding_register addr v) (addr + 1) rest

/-! ### The server dispatcher, from `ExampleService::call` (`mb_stuff.rs`). -/

/-- The request constructors `ExampleService::call` matches on, plus the
remaining `tokio_modbus::Request` constructors that all fall to the wildcard
arm. -/
inductive Request where
  | ReadHoldingRegisters (addr cnt : Nat)
  | WriteMultipleRegisters (addr : Nat) (values : List Nat)
  | WriteSingleRegister (addr value : Nat)
  | ReadCoils (addr cnt : Nat)
  | WriteMultipleCoils (addr : Nat) (values : List Bool)
  | WriteSingleCoil (addr : Nat) (value : Bool)
  | ReadDiscreteInputs (addr cnt : Nat)
  | ReadInputRegisters (addr cnt : Nat)
  | MaskWriteRegister (addr andMask orMask : Nat)
  | ReadWriteMultipleRegisters (readAddr readCnt writeAddr : Nat) (values : List Nat)
  | Disconnect
deriving DecidableEq

/-- The response constructors produced by `ExampleService::call`. -/
inductive Response where
  | ReadHoldingRegisters (values : List Nat)
  | WriteMultipleRegisters (addr cnt : Nat)
  | WriteSingleRegister (addr value : Nat)
  | ReadCoils (values : List Bool)
  | WriteMultipleCoils (addr cnt : Nat)
  | WriteSingleCoil (addr : Nat) (value : Bool)
deriving DecidableEq

/-- The only exception code `ExampleService::call` produces. -/
inductive ExceptionCode where
  | IllegalFunction
deriving DecidableEq

/-- The six request kinds handled by `ExampleService::call`; everything else
falls to the wildcard arm. -/
def Request.isHandled : Request → Bool
  | .ReadHoldingRegisters _ _ => true
  | .WriteMultipleRegisters _ _ => true
  | .WriteSingleRegister _ _ => true
  | .ReadCoils _ _ => true
  | .WriteMultipleCoils _ _ => true
  | .WriteSingleCoil _ _ => true
  | _ => false

/-- `ExampleService::call` (`mb_stuff.rs` lines 119-151).  The Rust service
mutates the shared state; the model returns the response (or exception)
together with the state after the call. -/
def ExampleService.call (s : SharedModbusState) (req : Request) :
    Except ExceptionCode Response × SharedModbusState :=
  match req with
  | .ReadHoldingRegisters addr cnt =>
      (.ok (.ReadHoldingRegisters (s.read_holding_registers addr cnt)), s)
  | .WriteMultipleRegisters addr values =>
      (.ok (.WriteMultipleRegisters addr values.length), s.write_holding_registers addr values)
  | .WriteSingleRegister addr v =>
      (.ok (.WriteSingleRegister addr v), s.write_holding_register addr v)
  | .ReadCoils addr cnt =>
      (.ok (.ReadCoils (s.read_coils addr cnt)), s)
  | .WriteMultipleCoils addr values =>
      (.ok (.WriteMultipleCoils addr values.length), s.write_coils addr values)
  | .WriteSingleCoil addr v =>
      (.ok (.WriteSingleCoil addr v), s.write_coil addr v)
  | _ => (.error .IllegalFunction, s)

/-! ### The polling controller, from `src/test_cases.rs`.

The controller talks to the device through three fallible transport
operations (`read_running_input`, `write_en_coil`, `write_index_hreg` of
`mb_helper.rs`); the device side is an oracle: the outcome of each operation
is a function of the instant it is issued.  `ε` is the transport-error type
(`anyhow::Error` restricted to transport failures).  The controller state
records the clock together with the values last written to the enable coil
and the index register (the controller is their only writer, so those are
what the corresponding signals read back). -/

/-- Result of `wait_for_running` (`test_cases.rs` lines 170-173). -/
inductive WaitForRunningResult where
  | Success
  | Timeout
deriving DecidableEq

/-- Result of `sr_single_early_stop` (`test_cases.rs` lines 47-50). -/
inductive EarlyStopResult where
  | Success
  | TooLate
deriving DecidableEq

/-- The distinct failure values the controller produces (`anyhow!` messages in
`test_cases.rs`, each with its own message), plus propagated transport
errors. -/
inductive CtrlError (ε : Type) where
  /-- A transport failure propagated by `?` / `return Err(e)`. -/
  | transport (e : ε)
  /-- "Timeout waiting for arm to set `running` to true ..." -/
  | startTimeout
  /-- "Timeout waiting for arm to set `running` to false ..." -/
  | stopTimeout
  /-- "... arm still running after 1 second grace period" (from
  `execute_early_stop`). -/
  | stopIgnored
  /-- "Arm still running after motion complete ..." (the hardware-anomaly
  post-check in `sr_single` / `sr_single_early_stop`). -/
  | stillRunning
deriving DecidableEq

/-- The device-and-transport oracle: each operation's outcome as a function
of the instant (in ms) it is issued. -/
structure Env (ε : Type) where
  /-- `read_running_input` at instant `t`. -/
  running : Nat → Except ε Bool
  /-- `write_en_coil` of value `b` at instant `t`. -/
  writeEn : Nat → Bool → Except ε Unit
  /-- `write_index_hreg` of index `i` at instant `t`. -/
  writeIdx : Nat → Nat → Except ε Unit

/-- Controller-visible state: the clock, and the last values written to the
enable coil and the index register. -/
structure CtrlState where
  time : Nat
  enable : Bool
  index : Nat
deriving DecidableEq

/-- The loop of `wait_for_running` (`test_cases.rs` lines 179-196), on raw
instants: at instant `t`, with entry instant `t0`, first re-check the
deadline (`start_time.elapsed() > timeout`), then observe; a failing
observation is returned immediately, a matching one returns `Success`
at once, and otherwise the loop sleeps 10 ms and repeats. -/
def waitAux (run : Nat → Except ε Bool) (target : Bool) (timeout t0 t : Nat) :
    Except ε (WaitForRunningResult × Nat) :=
  if _h : timeout < t - t0 then .ok (.Timeout, t)
  else
    match run t with
    | .error e => .error e
    | .ok b =>
        if b = target then .ok (.Success, t)
        else waitAux run target timeout t0 (t + 10)
termination_by t0 + timeout + 1 - t
decreasing_by omega

/-- `wait_for_running` (`test_cases.rs` lines 174-197): run `waitAux` from
the entry instant captured once (`start_time`); only the clock of the
controller state changes. -/
def wait_for_running (env : Env ε) (target : Bool) (timeout : Nat) (s : CtrlState) :
    Except ε (WaitForRunningResult × CtrlState) :=
  match waitAux env.running target timeout s.time s.time with
  | .error e => .error e
  | .ok (r, t) => .ok (r, { s with time := t })

/-- `execute_early_stop` (`test_cases.rs` lines 150-167): write enable=false,
then wait for running=false with a fixed 1-second (1000 ms) grace timeout;
the grace period elapsing is the hard error `stopIgnored`. -/
def execute_early_stop (env : Env ε) (s : CtrlState) :
    Except (CtrlError ε) (Unit × CtrlState) :=
  match env.writeEn s.time false with
  | .error e => .error (.transport e)
  | .ok _ =>
      match wait_for_running env false 1000 { s with enable := false } with
      | .error e => .error (.transport e)
      | .ok (.Success, s1) => .ok ((), s1)
      | .ok (.Timeout, _) => .error .stopIgnored

/-- The completion tail shared (textually duplicated) by `sr_single`
(lines 37-44) and the too-late path of `sr_single_early_stop`
(lines 137-144): write enable=false, sleep 100 ms, re-read the running
signal; reading `true` is the hardware anomaly `stillRunning`, reading
`false` is success. -/
def finish_check (env : Env ε) (s : CtrlState) : Except (CtrlError ε) CtrlState :=
  match env.writeEn s.time false with
  | .error e => .error (.transport e)
  | .ok _ =>
      match env.running (s.time + 100) with
      | .error e => .error (.transport e)
      | .ok true => .error .stillRunning
      | .ok false => .ok { s with enable := false, time := s.time + 100 }

/-- `sr_single` (`test_cases.rs` lines 7-45): write index, write enable=true,
wait for running=true (1 s), wait for running=false (60 s), then the
completion post-check. -/
def sr_single (env : Env ε) (idx : Nat) (s : CtrlState) :
    Except (CtrlError ε) (Unit × CtrlState) :=
  match env.writeIdx s.time idx with
  | .error e => .error (.transport e)
  | .ok _ =>
      match env.writeEn s.time true with
      | .error e => .error (.transport e)
      | .ok _ =>
          match wait_for_running env true 1000 { s with index := idx, enable := true } with
          | .error e => .error (.transport e)
          | .ok (.Timeout, _) => .error .startTimeout
          | .ok (.Success, s3) =>
              match wait_for_running env false 60000 s3 with
              | .error e => .error (.transport e)
              | .ok (.Timeout, _) => .error .stopTimeout
              | .ok (.Success, s4) => (finish_check env s4).map (fun s5 => ((), s5))

/-- The part of `sr_single_early_stop` after the running signal was observed
`true` (`test_cases.rs` lines 97-144): the stop-wait raced against the
cancellation instant `endTime`, then either the cancellation sequence (on
the raced wait timing out) or the completion post-check. -/
def sr_early_stop_tail (env : Env ε) (endTime : Nat) (s : CtrlState) :
    Except (CtrlError ε) (EarlyStopResult × CtrlState) :=
  if s.time + 60000 < endTime then
    match wait_for_running env false 60000 s with
    | .error e => .error (.transport e)
    | .ok (.Timeout, _) => .error .stopTimeout
    | .ok (.Success, s4) => (finish_check env s4).map (fun s5 => (.TooLate, s5))
  else
    match wait_for_running env false (endTime - s.time) s with
    | .error e => .error (.transport e)
    | .ok (.Timeout, s4) => (execute_early_stop env s4).map (fun x => (.Success, x.2))
    | .ok (.Success, s4) => (finish_check env s4).map (fun s5 => (.TooLate, s5))

/-- `sr_single_early_stop` (`test_cases.rs` lines 52-145): write index, write
enable=true, fix `end_time = now + early_stop_duration` (the writes are
instantaneous in the model, so `end_time = s.time + d` and `now` at the
start-wait comparison is still `s.time`), race the start-wait (1 s horizon)
against `end_time`, then continue with `sr_early_stop_tail`.  A wait raced
against `end_time` that times out triggers the cancellation sequence, whose
success is reported as `EarlyStopResult.Success`.  `tokio::time::Instant`
subtraction saturates at zero, hence the truncated `Nat` subtraction for the
adjusted deadline. -/
def sr_single_early_stop (env : Env ε) (idx : Nat) (d : Nat) (s : CtrlState) :
    Except (CtrlError ε) (EarlyStopResult × CtrlState) :=
  match env.writeIdx s.time idx with
  | .error e => .error (.transport e)
  | .ok _ =>
      match env.writeEn s.time true with
      | .error e => .error (.transport e)
      | .ok _ =>
          if s.time + 1000 < s.time + d then
            match wait_for_running env true 1000 { s with index := idx, enable := true } with
            | .error e => .error (.transport e)
            | .ok (.Timeout, _) => .error .startTimeout
            | .ok (.Success, s3) => sr_early_stop_tail env (s.time + d) s3
          else
            match wait_for_running env true ((s.time + d) - s.time)
                { s with index := idx, enable := true } with
            | .error e => .error (.transport e)
            | .ok (.Timeout, s3) => (execute_early_stop env s3).map (fun x => (.Success, x.2))
            | .ok (.Success, s3) => sr_early_stop_tail env (s.time + d) s3

/-! ### The increasing-delay sweep, from `tui_thread` in `src/main.rs`
(the `SrEarlyStopAllDelays` arm, lines 305-330).

The invocation `sr_single_early_stop_shared(&shared_state, idx, delay)` is
abstracted as an oracle `f` from the delay (in microseconds, the unit of the
sweep's increments) to the invocation's outcome.  The sweep state is
`(delay, increment, status)`; one `sweepStep` is one iteration of the Rust
`loop`, and `running` means the loop has not yet hit a `break`. -/

/-- Whether the sweep loop is still iterating, or has hit one of its two
`break`s. -/
inductive SweepStatus (ε : Type) where
  | running
  | doneTooLate
  | doneError (e : ε)
deriving DecidableEq

/-- One iteration of the sweep loop: `delay += increment`, then
`if increment < max_inc { increment *= 4 }` with `max_inc` = 2 s
(2000000 µs), then the invocation; `Ok(Success)` only logs and iterates
again, `Ok(TooLate)` and `Err` break.  A finished sweep stays finished. -/
def sweepStep (f : Nat → Except ε EarlyStopResult) :
    Nat × Nat × SweepStatus ε → Nat × Nat × SweepStatus ε
  | (delay, increment, .running) =>
      let newDelay := delay + increment
      let newInc := if increment < 2000000 then increment * 4 else increment
      match f newDelay with
      | .ok .Success => (newDelay, newInc, .running)
      | .ok .TooLate => (newDelay, newInc, .doneTooLate)
      | .error e => (newDelay, newInc, .doneError e)
  | st => st

/-- The sweep state after `n` iterations, starting from
`delay = 0 ms, increment = 1 µs` as in `main.rs` lines 307-308. -/
def sweepState (f : Nat → Except ε EarlyStopResult) : Nat → Nat × Nat × SweepStatus ε
  | 0 => (0, 1, .running)
  | n + 1 => sweepStep f (sweepState f n)

/-! ### Concrete oracles used to witness the theorems. -/

/-- A device that never asserts the running signal; transport never fails. -/
def envDown : Env Unit where
  running := fun _ => .ok false
  writeEn := fun _ _ => .ok ()
  writeIdx := fun _ _ => .ok ()

/-- A device whose running signal is `true` strictly before instant 10 and
`false` from then on; transport never fails. -/
def envPulse : Env Unit where
  running := fun t => .ok (decide (t < 10))
  writeEn := fun _ _ => .ok ()
  writeIdx := fun _ _ => .ok ()

/-- A device whose running signal becomes `true` exactly at instant 10;
transport never fails. -/
def envLate : Env Unit where
  running := fun t => .ok (decide (10 ≤ t))
  writeEn := fun _ _ => .ok ()
  writeIdx := fun _ _ => .ok ()

/-! ### Helper lemmas about the polling loop. -/

/-- The loop exits with `Timeout` as soon as the deadline check fails. -/
theorem waitAux_timeout_exit (run : Nat → Except ε Bool) (target : Bool) (timeout t0 t : Nat)
    (h : timeout < t - t0) : waitAux run target timeout t0 t = .ok (.Timeout, t) := by
  unfold waitAux
  simp [h]

/-- A failing observation is returned immediately. -/
theorem waitAux_error_exit (run : Nat → Except ε Bool) (target : Bool) (timeout t0 t : Nat)
    (e : ε) (h1 : ¬ timeout < t - t0) (h2 : run t = .error e) :
    waitAux run target timeout t0 t = .error e := by
  unfold waitAux
  simp [h1, h2]

/-- A matching observation returns `Success` immediately. -/
theorem waitAux_success_exit (run : Nat → Except ε Bool) (target : Bool) (timeout t0 t : Nat)
    (h1 : ¬ timeout < t - t0) (h2 : run t = .ok target) :
    waitAux run target timeout t0 t = .ok (.Success, t) := by
  unfold waitAux
  simp [h1, h2]

/-- A non-matching observation sleeps 10 ms and re-enters the loop. -/
theorem waitAux_sleep_step (run : Nat → Except ε Bool) (target : Bool) (timeout t0 t : Nat)
    (b : Bool) (h1 : ¬ timeout < t - t0) (h2 : run t = .ok b) (h3 : b ≠ target) :
    waitAux run target timeout t0 t = waitAux run target timeout t0 (t + 10) := by
  conv_lhs => unfold waitAux
  simp [h1, h2, h3]

/-- Inversion for a loop run that returns without an error: the exit instant
is reached in 10 ms steps, a `Success` exit observed the target within the
deadline, and a `Timeout` exit happened just past the deadline. -/
theorem waitAux_ok_bound (run : Nat → Except ε Bool) (target : Bool) (timeout t0 : Nat) :
    ∀ m t r t', t0 + timeout + 1 ≤ t + m →
      waitAux run target timeout t0 t = .ok (r, t') →
      (∃ k, t' = t + 10 * k) ∧
      (r = .Success → run t' = .ok target ∧ t' - t0 ≤ timeout) ∧
      (r = .Timeout → timeout < t' - t0) := by
  intro m
  induction m with
  | zero =>
      intro t r t' hm h
      have hgt : timeout < t - t0 := by omega
      rw [waitAux_timeout_exit run target timeout t0 t hgt] at h
      cases h
      exact ⟨⟨0, by omega⟩, (by intro hr; cases hr), fun _ => hgt⟩
  | succ n ih =>
      intro t r t' hm h
      by_cases hgt : timeout < t - t0
      · rw [waitAux_timeout_exit run target timeout t0 t hgt] at h
        cases h
        exact ⟨⟨0, by omega⟩, (by intro hr; cases hr), fun _ => hgt⟩
      · cases hrun : run t with
        | error e =>
            rw [waitAux_error_exit run target timeout t0 t e hgt hrun] at h
            cases h
        | ok b =>
            by_cases hbt : b = target
            · subst hbt
              rw [waitAux_success_exit run _ timeout t0 t hgt hrun] at h
              cases h
              refine ⟨⟨0, by omega⟩, fun _ => ⟨hrun, by omega⟩, ?_⟩
              intro hr; cases hr
            · rw [waitAux_sleep_step run target timeout t0 t b hgt hrun hbt] at h
              obtain ⟨⟨k, hk⟩, hs, ht⟩ := ih (t + 10) r t' (by omega) h
              exact ⟨⟨k + 1, by omega⟩, hs, ht⟩

/-- Forward characterization of a run in which every poll inside the window
observes successfully: some poll matching within the deadline yields a
`Success` exit, and no poll matching yields the `Timeout` exit at the first
poll instant past the deadline. -/
theorem waitAux_forward (run : Nat → Except ε Bool) (target : Bool) (timeout t0 : Nat) :
    ∀ m k, k + m = timeout / 10 + 1 →
      (∀ j, k ≤ j → 10 * j ≤ timeout → ∃ b, run (t0 + 10 * j) = .ok b) →
      ((∃ j, k ≤ j ∧ 10 * j ≤ timeout ∧ run (t0 + 10 * j) = .ok target) →
          ∃ t', waitAux run target timeout t0 (t0 + 10 * k) = .ok (.Success, t')) ∧
      ((∀ j, k ≤ j → 10 * j ≤ timeout → run (t0 + 10 * j) ≠ .ok target) →
          waitAux run target timeout t0 (t0 + 10 * k) =
            .ok (.Timeout, t0 + 10 * (timeout / 10 + 1))) := by
  have hdm := Nat.div_add_mod timeout 10
  have hmod : timeout % 10 < 10 := Nat.mod_lt timeout (by norm_num)
  intro m
  induction m with
  | zero =>
      intro k hk hok
      have hgt : timeout < 10 * k := by omega
      constructor
      · rintro ⟨j, hj1, hj2, _⟩
        exact absurd hj2 (by omega)
      · intro _
        have hkeq : k = timeout / 10 + 1 := by omega
        rw [hkeq]
        exact waitAux_timeout_exit run target timeout t0 _ (by omega)
  | succ n ih =>
      intro k hk hok
      have h10k : 10 * k ≤ timeout := by omega
      obtain ⟨b, hb⟩ := hok k le_rfl h10k
      by_cases hbt : b = target
      · subst hbt
        constructor
        · intro _
          exact ⟨_, waitAux_success_exit run _ timeout t0 _ (by omega) hb⟩
        · intro hno
          exact absurd hb (hno k le_rfl h10k)
      · have hstep := waitAux_sleep_step run target timeout t0 (t0 + 10 * k) b (by omega) hb hbt
        have harith : t0 + 10 * k + 10 = t0 + 10 * (k + 1) := by ring
        rw [harith] at hstep
        have ihk := ih (k + 1) (by omega) (fun j hj hj2 => hok j (by omega) hj2)
        constructor
        · rintro ⟨j, hj1, hj2, hj3⟩
          have hjk : k + 1 ≤ j := by
            rcases Nat.eq_or_lt_of_le hj1 with heq | hlt
            · exfalso
              rw [← heq] at hj3
              rw [hj3] at hb
              cases hb
              exact hbt rfl
            · omega
          obtain ⟨t', ht'⟩ := ihk.1 ⟨j, hjk, hj2, hj3⟩
          exact ⟨t', by rw [hstep]; exact ht'⟩
        · intro hno
          rw [hstep]
          exact ihk.2 (fun j hj hj2 => hno j (by omega) hj2)

/-- The first failing observation, after a streak of successful non-matching
ones, is propagated as the loop's result. -/
theorem waitAux_error_prop (run : Nat → Except ε Bool) (target : Bool) (timeout t0 m : Nat)
    (e : ε) :
    ∀ i k, k + i = m →
      (∀ j, k ≤ j → j < m → ∃ b, b ≠ target ∧ run (t0 + 10 * j) = .ok b) →
      10 * m ≤ timeout → run (t0 + 10 * m) = .error e →
      waitAux run target timeout t0 (t0 + 10 * k) = .error e := by
  intro i
  induction i with
  | zero =>
      intro k hk hprev h10 he
      have hkeq : k = m := by omega
      subst hkeq
      exact waitAux_error_exit run target timeout t0 _ e (by omega) he
  | succ n ih =>
      intro k hk hprev h10 he
      obtain ⟨b, hbne, hb⟩ := hprev k le_rfl (by omega)
      have hstep := waitAux_sleep_step run target timeout t0 (t0 + 10 * k) b (by omega) hb hbne
      have harith : t0 + 10 * k + 10 = t0 + 10 * (k + 1) := by ring
      rw [harith] at hstep
      rw [hstep]
      exact ih (k + 1) (by omega) (fun j hj hj2 => hprev j (by omega) hj2) h10 he

/-- Transfer a `waitAux` run to `wait_for_running`. -/
theorem wait_for_running_of_waitAux (env : Env ε) (target : Bool) (timeout : Nat)
    (s : CtrlState) (r : WaitForRunningResult) (t : Nat)
    (h : waitAux env.running target timeout s.time s.time = .ok (r, t)) :
    wait_for_running env target timeout s = .ok (r, { s with time := t }) := by
  unfold wait_for_running
  rw [h]

/-- Inversion for `wait_for_running`: only the clock changes, and a
`Success` result observed the target at the exit instant, within the
deadline. -/
theorem wait_for_running_ok_inv (env : Env ε) (target : Bool) (timeout : Nat) (s : CtrlState)
    (r : WaitForRunningResult) (s' : CtrlState)
    (h : wait_for_running env target timeout s = .ok (r, s')) :
    s'.enable = s.enable ∧ s'.index = s.index ∧ (∃ k, s'.time = s.time + 10 * k) ∧
    (r = .Success → env.running s'.time = .ok target ∧ s'.time - s.time ≤ timeout) ∧
    (r = .Timeout → timeout < s'.time - s.time) := by
  unfold wait_for_running at h
  cases hw : waitAux env.running target timeout s.time s.time with
  | error e =>
      rw [hw] at h
      cases h
  | ok p =>
      obtain ⟨r0, t⟩ := p
      rw [hw] at h
      cases h
      obtain ⟨⟨k, hk⟩, hs, ht⟩ := waitAux_ok_bound env.running target timeout s.time
        (timeout + 1) s.time _ _ (by omega) hw
      exact ⟨rfl, rfl, ⟨k, by simpa using hk⟩, by simpa using hs, by simpa using ht⟩

/-- Forward characterization of `wait_for_running` when every poll in the
window observes successfully. -/
theorem wait_for_running_forward (env : Env ε) (target : Bool) (timeout : Nat) (s : CtrlState)
    (hok : ∀ k, 10 * k ≤ timeout → ∃ b, env.running (s.time + 10 * k) = .ok b) :
    ((∃ k, 10 * k ≤ timeout ∧ env.running (s.time + 10 * k) = .ok target) →
        ∃ s', wait_for_running env target timeout s = .ok (.Success, s')) ∧
    ((∀ k, 10 * k ≤ timeout → env.running (s.time + 10 * k) ≠ .ok target) →
        wait_for_running env target timeout s =
          .ok (.Timeout, { s with time := s.time + 10 * (timeout / 10 + 1) })) := by
  have hfwd := waitAux_forward env.running target timeout s.time (timeout / 10 + 1) 0 (by omega)
    (fun j _ hj2 => hok j hj2)
  have hzero : s.time + 10 * 0 = s.time := by omega
  constructor
  · rintro ⟨k, hk1, hk2⟩
    obtain ⟨t', ht'⟩ := hfwd.1 ⟨k, Nat.zero_le k, hk1, hk2⟩
    rw [hzero] at ht'
    exact ⟨_, wait_for_running_of_waitAux env target timeout s _ _ ht'⟩
  · intro hno
    have := hfwd.2 (fun j _ hj2 => hno j hj2)
    rw [hzero] at this
    exact wait_for_running_of_waitAux env target timeout s _ _ this

/-- Error propagation for `wait_for_running`. -/
theorem wait_for_running_error (env : Env ε) (target : Bool) (timeout : Nat) (s : CtrlState)
    (m : Nat) (e : ε)
    (hprev : ∀ j, j < m → ∃ b, b ≠ target ∧ env.running (s.time + 10 * j) = .ok b)
    (h10 : 10 * m ≤ timeout) (he : env.running (s.time + 10 * m) = .error e) :
    wait_for_running env target timeout s = .error e := by
  have herr := waitAux_error_prop env.running target timeout s.time m e m 0 (by omega)
    (fun j _ hj2 => hprev j hj2) h10 he
  have hzero : s.time + 10 * 0 = s.time := by omega
  rw [hzero] at herr
  unfold wait_for_running
  rw [herr]

/-! ### Helper lemmas about the store. -/

/-- Mapping preserves definedness of an optional value. -/
theorem isSome_map_self (o : Option α) (f : α → β) : (o.map f).isSome = o.isSome := by
  cases o <;> rfl

/-- Pointwise reading of `write_coil`. -/
theorem write_coil_coils (s : SharedModbusState) (addr : Nat) (v : Bool) (a : Nat) :
    (s.write_coil addr v).coils a =
      if a = addr then (s.coils a).map (fun _ => v) else s.coils a := rfl

/-- `write_coil` to an unmapped address is a no-op. -/
theorem write_coil_unmapped (s : SharedModbusState) (addr : Nat) (v : Bool)
    (h : s.coils addr = none) : s.write_coil addr v = s := by
  cases s with
  | mk hr c =>
      simp only [SharedModbusState.write_coil]
      congr 1
      funext a
      by_cases ha : a = addr
      · subst ha
        simp_all
      · simp [ha]

/-- Pointwise effect of `write_coils`: each covered address gets the
`write_coil` policy applied with its own element, all other addresses are
untouched. -/
theorem write_coils_coils : ∀ (values : List Bool) (s : SharedModbusState) (addr a : Nat),
    (s.write_coils addr values).coils a =
      if addr ≤ a ∧ a < addr + values.length
      then (s.coils a).map (fun _ => values.getD (a - addr) false)
      else s.coils a := by
  intro values
  induction values with
  | nil =>
      intro s addr a
      simp only [SharedModbusState.write_coils, List.length_nil]
      rw [if_neg (by omega)]
  | cons v rest ih =>
      intro s addr a
      simp only [SharedModbusState.write_coils, List.length_cons]
      rw [ih]
      by_cases ha : a = addr
      · subst ha
        rw [if_neg (by omega), if_pos (by omega)]
        simp [SharedModbusState.write_coil]
      · have hwc : (s.write_coil addr v).coils a = s.coils a := by
          simp [SharedModbusState.write_coil, ha]
        by_cases hin : addr ≤ a ∧ a < addr + (rest.length + 1)
        · rw [if_pos (by omega : addr + 1 ≤ a ∧ a < addr + 1 + rest.length), if_pos hin, hwc]
          have hsub : a - addr = (a - (addr + 1)) + 1 := by omega
          rw [hsub]
          simp
        · rw [if_neg (by omega), if_neg hin, hwc]

/-- Pointwise reading of `write_holding_register`. -/
theorem write_hreg_regs (s : SharedModbusState) (addr value a : Nat) :
    (s.write_holding_register addr value).holding_registers a =
      if a = addr then (s.holding_registers a).map (fun _ => value)
      else s.holding_registers a := rfl

/-- `write_holding_register` to an unmapped address is a no-op. -/
theorem write_hreg_unmapped (s : SharedModbusState) (addr value : Nat)
    (h : s.holding_registers addr = none) : s.write_holding_register addr value = s := by
  cases s with
  | mk hr c =>
      simp only [SharedModbusState.write_holding_register]
      congr 1
      funext a
      by_cases ha : a = addr
      · subst ha
        simp_all
      · simp [ha]

/-- Pointwise effect of `write_holding_registers`, same shape as
`write_coils_coils`. -/
theorem write_hregs_regs : ∀ (values : List Nat) (s : SharedModbusState) (addr a : Nat),
    (s.write_holding_registers addr values).holding_registers a =
      if addr ≤ a ∧ a < addr + values.length
      then (s.holding_registers a).map (fun _ => values.getD (a - addr) 0)
      else s.holding_registers a := by
  intro values
  induction values with
  | nil =>
      intro s addr a
      simp only [SharedModbusState.write_holding_registers, List.length_nil]
      rw [if_neg (by omega)]
  | cons v rest ih =>
      intro s addr a
      simp only [SharedModbusState.write_holding_registers, List.length_cons]
      rw [ih]
      by_cases ha : a = addr
      · subst ha
        rw [if_neg (by omega), if_pos (by omega)]
        simp [SharedModbusState.write_holding_register]
      · have hwc : (s.write_holding_register addr v).holding_registers a =
            s.holding_registers a := by
          simp [SharedModbusState.write_holding_register, ha]
        by_cases hin : addr ≤ a ∧ a < addr + (rest.length + 1)
        · rw [if_pos (by omega : addr + 1 ≤ a ∧ a < addr + 1 + rest.length), if_pos hin, hwc]
          have hsub : a - addr = (a - (addr + 1)) + 1 := by omega
          rw [hsub]
          simp
        · rw [if_neg (by omega), if_neg hin, hwc]

/-! ### Claims about the store. -/

/-- Claim C8: for every coil address not present in the coil map, `read_coil`
returns `false` and `write_coil` is a no-op; neither operation ever fails
(both are total in the model, matching the infallible Rust signatures); and
for every `addr` and `count` such that `addr + count - 1` does not overflow
`u16`, `read_coils addr count` returns exactly `count` elements, element `i`
being the mapped value at `addr + i` or `false` when that address is
unmapped, with `write_coils` applying the same per-element no-op policy
(each covered mapped address is updated, each covered unmapped address is
left absent). -/
theorem claim_C8 (s : SharedModbusState) (addr count : Nat) (v : Bool) (values : List Bool) :
    (s.coils addr = none → s.read_coil addr = false ∧ s.write_coil addr v = s) ∧
    (addr + count ≤ 65536 →
      (s.read_coils addr count).length = count ∧
      (∀ i, i < count →
        (s.read_coils addr count)[i]? = some ((s.coils (addr + i)).getD false))) ∧
    (∀ i, i < values.length →
      (s.write_coils addr values).coils (addr + i) =
        (s.coils (addr + i)).map (fun _ => values.getD i false)) ∧
    (∀ a, s.coils a = none → (s.write_coils addr values).coils a = none) := by
  refine ⟨fun h => ⟨by simp [SharedModbusState.read_coil, h], write_coil_unmapped s addr v h⟩,
    fun _ => ⟨by simp [SharedModbusState.read_coils], fun i hi => ?_⟩,
    fun i hi => ?_, fun a ha => ?_⟩
  · simp [SharedModbusState.read_coils, hi]
  · rw [write_coils_coils]
    rw [if_pos (by omega)]
    have hsub : addr + i - addr = i := by omega
    rw [hsub]
  · rw [write_coils_coils]
    split
    · rw [ha]
      rfl
    · exact ha

/-- Witness for C8 at concrete inputs: address 3 is unmapped (read gives
`false`, write is a no-op) and a two-coil write at 8 updates the mapped
coil 9. -/
theorem claim_C8_witness :
    SharedModbusState.new.coils 3 = none ∧
    SharedModbusState.new.read_coil 3 = false ∧
    SharedModbusState.new.write_coil 3 true = SharedModbusState.new ∧
    (SharedModbusState.new.write_coils 8 [true, true]).coils 9 = some true := by
  have h1 := (claim_C8 SharedModbusState.new 3 0 true []).1 rfl
  have h2 := (claim_C8 SharedModbusState.new 8 2 true [true, true]).2.2.1 1 (by norm_num)
  refine ⟨rfl, h1.1, h1.2, ?_⟩
  have h9 : (8 : Nat) + 1 = 9 := rfl
  rw [← h9, h2]
  rfl

/-- Claim C9: the mapped-address sets are fixed at construction — coils
`{ENABLE_COIL_OFFSET = 8, RUNNING_COIL_OFFSET = 9}`, holding registers
`{INDEX_HREG_OFFSET = 8}` — and every operation preserves the domains:
writes to a mapped address update the value in place, writes to an unmapped
address insert nothing, and no operation in either namespace touches the
other namespace.  (Reads return plain values and do not touch the state at
all in the model.) -/
theorem claim_C9 (s : SharedModbusState) (addr value a : Nat) (b : Bool)
    (bs : List Bool) (vs : List Nat) :
    (((SharedModbusState.new.coils a).isSome ↔
        a = ENABLE_COIL_OFFSET ∨ a = RUNNING_COIL_OFFSET) ∧
     ((SharedModbusState.new.holding_registers a).isSome ↔ a = INDEX_HREG_OFFSET) ∧
     ENABLE_COIL_OFFSET = 8 ∧ RUNNING_COIL_OFFSET = 9 ∧ INDEX_HREG_OFFSET = 8) ∧
    (((s.write_coil addr b).coils a).isSome = (s.coils a).isSome ∧
     ((s.write_coils addr bs).coils a).isSome = (s.coils a).isSome ∧
     ((s.write_holding_register addr value).holding_registers a).isSome
        = (s.holding_registers a).isSome ∧
     ((s.write_holding_registers addr vs).holding_registers a).isSome
        = (s.holding_registers a).isSome ∧
     (s.write_coil addr b).holding_registers = s.holding_registers ∧
     (s.write_holding_register addr value).coils = s.coils) ∧
    ((s.coils addr).isSome → (s.write_coil addr b).coils addr = some b) ∧
    ((s.holding_registers addr).isSome →
      (s.write_holding_register addr value).holding_registers addr = some value) := by
  refine ⟨⟨?_, ?_, rfl, rfl, rfl⟩, ⟨?_, ?_, ?_, ?_, rfl, rfl⟩, ?_, ?_⟩
  · by_cases h8 : a = 8 <;> by_cases h9 : a = 9 <;>
      simp [SharedModbusState.new, ENABLE_COIL_OFFSET, RUNNING_COIL_OFFSET, h8, h9]
  · by_cases h8 : a = 8 <;>
      simp [SharedModbusState.new, INDEX_HREG_OFFSET, h8]
  · rw [write_coil_coils]
    split
    · exact isSome_map_self _ _
    · rfl
  · rw [write_coils_coils]
    split
    · exact isSome_map_self _ _
    · rfl
  · rw [write_hreg_regs]
    split
    · exact isSome_map_self _ _
    · rfl
  · rw [write_hregs_regs]
    split
    · exact isSome_map_self _ _
    · rfl
  · intro h
    obtain ⟨x, hx⟩ := Option.isSome_iff_exists.mp h
    rw [write_coil_coils, if_pos rfl, hx]
    rfl
  · intro h
    obtain ⟨x, hx⟩ := Option.isSome_iff_exists.mp h
    rw [write_hreg_regs, if_pos rfl, hx]
    rfl

/-- Witness for C9: writing the mapped coil 8 and the mapped register 8
updates them in place. -/
theorem claim_C9_witness :
    (SharedModbusState.new.write_coil 8 true).coils 8 = some true ∧
    (SharedModbusState.new.write_holding_register 8 7).holding_registers 8 = some 7 := by
  have h := claim_C9 SharedModbusState.new 8 7 8 true [] []
  exact ⟨h.2.2.1 (by rfl), h.2.2.2 (by rfl)⟩

/-- Counterexample to claim C4 as stated: the register namespace has no
addressing error at all.  At the concrete input `write_holding_registers 7
[5, 6]` on the freshly constructed state, address 7 is unmapped, yet the
covered mapped address 8 is updated from `some 0` to `some 6` — the write is
not all-or-nothing and does not fail; likewise `read_holding_registers 7 2`
covering the unmapped address 7 returns `[0, 0]` instead of failing. -/
theorem claim_C4_counterexample :
    SharedModbusState.new.holding_registers 7 = none ∧
    SharedModbusState.new.holding_registers 8 = some 0 ∧
    (SharedModbusState.new.write_holding_registers 7 [5, 6]).holding_registers 8 = some 6 ∧
    SharedModbusState.new.read_holding_registers 7 2 = [0, 0] :=
  ⟨rfl, rfl, rfl, rfl⟩

/-- Claim C4 as amended: register access to an unmapped address does not
fail; a read yields the default value `0` for each unmapped covered address,
a single-register write to an unmapped address is a no-op, and a
multi-register write applies each element whose covered address is mapped
while skipping (only) the unmapped ones — the same lenient per-element
policy as the coils. -/
theorem claim_C4_amended (s : SharedModbusState) (addr count value : Nat) (values : List Nat) :
    (s.holding_registers addr = none →
      s.read_holding_registers addr 1 = [0] ∧ s.write_holding_register addr value = s) ∧
    ((s.read_holding_registers addr count).length = count ∧
      (∀ i, i < count →
        (s.read_holding_registers addr count)[i]? =
          some ((s.holding_registers (addr + i)).getD 0))) ∧
    (∀ i, i < values.length →
      (s.write_holding_registers addr values).holding_registers (addr + i) =
        (s.holding_registers (addr + i)).map (fun _ => values.getD i 0)) := by
  refine ⟨fun h => ⟨by simp [SharedModbusState.read_holding_registers, List.range_succ, h],
      write_hreg_unmapped s addr value h⟩,
    ⟨by simp [SharedModbusState.read_holding_registers], fun i hi => ?_⟩, fun i hi => ?_⟩
  · simp [SharedModbusState.read_holding_registers, hi]
  · rw [write_hregs_regs]
    rw [if_pos (by omega)]
    have hsub : addr + i - addr = i := by omega
    rw [hsub]

/-- Witness for the amended C4 at concrete inputs: address 7 is unmapped on
the fresh state — its read yields `[0]`, its write is a no-op, and the
two-register write at 7 leaves 7 absent while updating only the mapped
neighbour. -/
theorem claim_C4_witness :
    SharedModbusState.new.read_holding_registers 7 1 = [0] ∧
    SharedModbusState.new.write_holding_register 7 5 = SharedModbusState.new ∧
    (SharedModbusState.new.write_holding_registers 7 [5, 6]).holding_registers 7 = none := by
  have h1 := (claim_C4_amended SharedModbusState.new 7 1 5 [5, 6]).1 rfl
  have h2 := (claim_C4_amended SharedModbusState.new 7 1 5 [5, 6]).2.2 0 (by norm_num)
  refine ⟨h1.1, h1.2, ?_⟩
  have h7 : (7 : Nat) + 0 = 7 := rfl
  rw [← h7, h2]
  rfl

/-- Claim C10: every request other than the six handled kinds
(`ReadHoldingRegisters`, `WriteMultipleRegisters`, `WriteSingleRegister`,
`ReadCoils`, `WriteMultipleCoils`, `WriteSingleCoil`) makes
`ExampleService::call` return the `IllegalFunction` exception and leave the
shared store (both maps) unchanged. -/
theorem claim_C10 (s : SharedModbusState) (req : Request) (h : req.isHandled = false) :
    ExampleService.call s req = (.error ExceptionCode.IllegalFunction, s) := by
  cases req <;> first | rfl | (simp [Request.isHandled] at h)

/-- Witness for C10 at the concrete request `Disconnect`. -/
theorem claim_C10_witness :
    ExampleService.call SharedModbusState.new Request.Disconnect =
      (.error ExceptionCode.IllegalFunction, SharedModbusState.new) :=
  claim_C10 SharedModbusState.new Request.Disconnect rfl

/-! ### Claims about the polling controller. -/

/-- Claim C2, corrected, with "strictly before the deadline" amended to "no
later than the deadline" (the loop exits on `elapsed() > timeout`, so an
observation at exactly `elapsed = timeout` still counts): when every poll in
the window observes successfully, `wait_for_running` returns `Success` iff
some observation at `elapsed ≤ timeout` equals `target`, and returns
`Timeout` (at the first poll instant past the deadline) otherwise; a failing
observation propagates the transport error immediately with no further
polling; polls are spaced by the fixed 10 ms sleep and the deadline is
checked against the entry instant captured once. -/
theorem claim_C2_amended (env : Env ε) (target : Bool) (timeout : Nat) (s : CtrlState) :
    ((∀ k, 10 * k ≤ timeout → ∃ b, env.running (s.time + 10 * k) = .ok b) →
      ((∃ s', wait_for_running env target timeout s = .ok (.Success, s')) ↔
        (∃ k, 10 * k ≤ timeout ∧ env.running (s.time + 10 * k) = .ok target))) ∧
    ((∀ k, 10 * k ≤ timeout → ∃ b, env.running (s.time + 10 * k) = .ok b) →
      (∀ k, 10 * k ≤ timeout → env.running (s.time + 10 * k) ≠ .ok target) →
      wait_for_running env target timeout s =
        .ok (.Timeout, { s with time := s.time + 10 * (timeout / 10 + 1) })) ∧
    (∀ s', wait_for_running env target timeout s = .ok (.Success, s') →
      env.running s'.time = .ok target ∧ s'.time - s.time ≤ timeout ∧
      s'.enable = s.enable ∧ s'.index = s.index ∧ ∃ k, s'.time = s.time + 10 * k) ∧
    (∀ m e, (∀ j, j < m → ∃ b, b ≠ target ∧ env.running (s.time + 10 * j) = .ok b) →
      10 * m ≤ timeout → env.running (s.time + 10 * m) = .error e →
      wait_for_running env target timeout s = .error e) := by
  refine ⟨fun hok => ⟨?_, fun hm => (wait_for_running_forward env target timeout s hok).1 hm⟩,
    fun hok hno => (wait_for_running_forward env target timeout s hok).2 hno,
    fun s' h => ?_, fun m e hprev h10 he =>
      wait_for_running_error env target timeout s m e hprev h10 he⟩
  · rintro ⟨s', h⟩
    obtain ⟨_, _, ⟨k, hk⟩, hs, _⟩ := wait_for_running_ok_inv env target timeout s _ _ h
    obtain ⟨hrun, hle⟩ := hs rfl
    refine ⟨k, by omega, ?_⟩
    rw [← hk]
    exact hrun
  · obtain ⟨he, hi, ⟨k, hk⟩, hs, _⟩ := wait_for_running_ok_inv env target timeout s _ _ h
    obtain ⟨hrun, hle⟩ := hs rfl
    exact ⟨hrun, hle, he, hi, k, hk⟩

/-- Counterexample to claim C2 as stated: with the device `envLate` (running
becomes `true` exactly at instant 10) and `timeout = 10` entered at instant
0, the wait returns `Success` from the observation made exactly at the
deadline (entry + timeout = 10), although no observation strictly before the
deadline equals the target — the code's deadline check is
`elapsed() > timeout`, not `elapsed() ≥ timeout`. -/
theorem claim_C2_counterexample :
    wait_for_running envLate true 10 ⟨0, false, 0⟩ =
      .ok (.Success, ⟨10, false, 0⟩) ∧
    (∀ t, t < 10 → envLate.running t ≠ .ok true) := by
  constructor
  · have h1 : waitAux envLate.running true 10 0 0 = waitAux envLate.running true 10 0 (0 + 10) :=
      waitAux_sleep_step envLate.running true 10 0 0 false (by omega) rfl (by simp)
    have h2 : waitAux envLate.running true 10 0 (0 + 10) = .ok (.Success, 0 + 10) :=
      waitAux_success_exit envLate.running true 10 0 (0 + 10) (by omega) rfl
    have h3 : waitAux envLate.running true 10 0 0 = .ok (.Success, 10) := by
      rw [h1, h2]
    exact wait_for_running_of_waitAux envLate true 10 ⟨0, false, 0⟩ .Success 10 h3
  · intro t ht h
    have h10 : 10 ≤ t := by simpa [envLate] using h
    omega

/-- Witness for the amended C2: a matching first observation returns
`Success`, and a never-matching signal returns `Timeout` one interval past
the deadline. -/
theorem claim_C2_witness :
    (∃ s', wait_for_running envDown false 0 ⟨5, true, 1⟩ = .ok (.Success, s')) ∧
    wait_for_running envDown true 0 ⟨0, false, 0⟩ = .ok (.Timeout, ⟨10, false, 0⟩) := by
  constructor
  · exact ((claim_C2_amended envDown false 0 ⟨5, true, 1⟩).1
      (fun k _ => ⟨false, rfl⟩)).mpr ⟨0, by omega, rfl⟩
  · exact (claim_C2_amended envDown true 0 ⟨0, false, 0⟩).2.1
      (fun k _ => ⟨false, rfl⟩) (fun k _ => by simp [envDown])

/-- Claim C5: `execute_early_stop` writes enable=false and polls the running
signal for `false` with the fixed 1-second (1000 ms) grace timeout; the
grace period elapsing yields the hard error `stopIgnored`, distinct from the
normal phase-timeout errors (and from transport errors); reaching `false`
within the grace period yields success, after which the enable signal reads
`false` and the running signal was observed `false` at the final
instant. -/
theorem claim_C5 (env : Env ε) (s : CtrlState) (hw : env.writeEn s.time false = .ok ()) :
    (∀ s1, wait_for_running env false 1000 { s with enable := false } = .ok (.Timeout, s1) →
      execute_early_stop env s = .error CtrlError.stopIgnored ∧
      (CtrlError.stopIgnored : CtrlError ε) ≠ CtrlError.startTimeout ∧
      (CtrlError.stopIgnored : CtrlError ε) ≠ CtrlError.stopTimeout ∧
      (∀ e, (CtrlError.stopIgnored : CtrlError ε) ≠ CtrlError.transport e)) ∧
    (∀ s1, wait_for_running env false 1000 { s with enable := false } = .ok (.Success, s1) →
      execute_early_stop env s = .ok ((), s1) ∧ s1.enable = false ∧
      env.running s1.time = .ok false) := by
  constructor
  · intro s1 hwait
    refine ⟨?_, by simp, by simp, by simp⟩
    unfold execute_early_stop
    rw [hw, hwait]
  · intro s1 hwait
    obtain ⟨hen, _, _, hs, _⟩ := wait_for_running_ok_inv env false 1000 _ _ _ hwait
    refine ⟨?_, by simpa using hen, (hs rfl).1⟩
    unfold execute_early_stop
    rw [hw, hwait]

/-- Witness for C5: with the never-running device, the grace wait succeeds
at its first observation and the early stop returns success with enable
false. -/
theorem claim_C5_witness :
    execute_early_stop envDown ⟨0, true, 3⟩ = .ok ((), ⟨0, false, 3⟩) ∧
    envDown.running 0 = .ok false := by
  have hwait : wait_for_running envDown false 1000 ⟨0, false, 3⟩ =
      .ok (.Success, ⟨0, false, 3⟩) :=
    wait_for_running_of_waitAux envDown false 1000 ⟨0, false, 3⟩ .Success 0
      (waitAux_success_exit envDown.running false 1000 0 0 (by omega) rfl)
  have h := ((claim_C5 envDown ⟨0, true, 3⟩ rfl).2 ⟨0, false, 3⟩ hwait)
  exact ⟨h.1, h.2.2⟩

/-- Claim C1: in `sr_single_early_stop` with `end_time = invocation start +
d`, each of the start-wait (1 s horizon) and stop-wait (60 s horizon) polls
with its full horizon exactly when that horizon ends strictly before
`end_time` (for the start-wait: `s.time + 1000 < s.time + d`, i.e.
`1000 < d`) — a timeout there is the ordinary phase-timeout failure — and
otherwise polls only until `end_time` with the adjusted deadline; if
`end_time` elapses before the awaited running value is observed (the
adjusted wait times out), the cancellation sequence `execute_early_stop`
is executed, and its result, when successful, is returned as the
early-stopped success outcome `EarlyStopResult.Success`. -/
theorem claim_C1 (env : Env ε) (idx d : Nat) (s : CtrlState)
    (hIdx : env.writeIdx s.time idx = .ok ())
    (hEn : env.writeEn s.time true = .ok ()) :
    ((1000 < d → ∀ s3,
        (wait_for_running env true 1000 { s with index := idx, enable := true } =
            .ok (.Timeout, s3) →
          sr_single_early_stop env idx d s = .error CtrlError.startTimeout) ∧
        (wait_for_running env true 1000 { s with index := idx, enable := true } =
            .ok (.Success, s3) →
          sr_single_early_stop env idx d s = sr_early_stop_tail env (s.time + d) s3)) ∧
     (¬ 1000 < d → ∀ s3,
        (wait_for_running env true d { s with index := idx, enable := true } =
            .ok (.Timeout, s3) →
          sr_single_early_stop env idx d s =
            (execute_early_stop env s3).map (fun x => (EarlyStopResult.Success, x.2))) ∧
        (wait_for_running env true d { s with index := idx, enable := true } =
            .ok (.Success, s3) →
          sr_single_early_stop env idx d s = sr_early_stop_tail env (s.time + d) s3))) ∧
    (∀ endTime s3,
      (s3.time + 60000 < endTime → ∀ s4,
        (wait_for_running env false 60000 s3 = .ok (.Timeout, s4) →
          sr_early_stop_tail env endTime s3 = .error CtrlError.stopTimeout) ∧
        (wait_for_running env false 60000 s3 = .ok (.Success, s4) →
          sr_early_stop_tail env endTime s3 =
            (finish_check env s4).map (fun s5 => (EarlyStopResult.TooLate, s5)))) ∧
      (¬ s3.time + 60000 < endTime → ∀ s4,
        (wait_for_running env false (endTime - s3.time) s3 = .ok (.Timeout, s4) →
          sr_early_stop_tail env endTime s3 =
            (execute_early_stop env s4).map (fun x => (EarlyStopResult.Success, x.2))) ∧
        (wait_for_running env false (endTime - s3.time) s3 = .ok (.Success, s4) →
          sr_early_stop_tail env endTime s3 =
            (finish_check env s4).map (fun s5 => (EarlyStopResult.TooLate, s5))))) ∧
    (∀ s3 s4, execute_early_stop env s3 = .ok ((), s4) →
      (execute_early_stop env s3).map (fun x => (EarlyStopResult.Success, x.2)) =
        .ok (EarlyStopResult.Success, s4)) := by
  have hsub : (s.time + d) - s.time = d := by omega
  refine ⟨⟨fun hd s3 => ⟨fun hwait => ?_, fun hwait => ?_⟩,
      fun hd s3 => ⟨fun hwait => ?_, fun hwait => ?_⟩⟩,
    fun endTime s3 => ⟨fun hc s4 => ⟨fun hwait => ?_, fun hwait => ?_⟩,
      fun hc s4 => ⟨fun hwait => ?_, fun hwait => ?_⟩⟩,
    fun s3 s4 h => by rw [h]; rfl⟩
  · unfold sr_single_early_stop
    rw [hIdx, hEn, if_pos (show s.time + 1000 < s.time + d by omega), hwait]
  · unfold sr_single_early_stop
    rw [hIdx, hEn, if_pos (show s.time + 1000 < s.time + d by omega), hwait]
  · unfold sr_single_early_stop
    rw [hIdx, hEn, if_neg (show ¬ s.time + 1000 < s.time + d by omega), hsub, hwait]
  · unfold sr_single_early_stop
    rw [hIdx, hEn, if_neg (show ¬ s.time + 1000 < s.time + d by omega), hsub, hwait]
  · unfold sr_early_stop_tail
    rw [if_pos hc, hwait]
  · unfold sr_early_stop_tail
    rw [if_pos hc, hwait]
  · unfold sr_early_stop_tail
    rw [if_neg hc, hwait]
  · unfold sr_early_stop_tail
    rw [if_neg hc, hwait]

/-- Witness for C1: with the never-running device and `d = 0`, the adjusted
start-wait times out immediately, the cancellation sequence runs and the
invocation returns the early-stopped success outcome. -/
theorem claim_C1_witness :
    sr_single_early_stop envDown 3 0 ⟨0, false, 0⟩ =
      .ok (EarlyStopResult.Success, ⟨10, false, 3⟩) := by
  have hwait : wait_for_running envDown true 0 ⟨0, true, 3⟩ = .ok (.Timeout, ⟨10, true, 3⟩) := by
    have h1 : waitAux envDown.running true 0 0 0 = waitAux envDown.running true 0 0 (0 + 10) :=
      waitAux_sleep_step envDown.running true 0 0 0 false (by omega) rfl (by simp)
    have h2 : waitAux envDown.running true 0 0 (0 + 10) = .ok (.Timeout, 0 + 10) :=
      waitAux_timeout_exit envDown.running true 0 0 (0 + 10) (by omega)
    exact wait_for_running_of_waitAux envDown true 0 ⟨0, true, 3⟩ .Timeout 10 (by rw [h1, h2])
  have hstop : execute_early_stop envDown ⟨10, true, 3⟩ = .ok ((), ⟨10, false, 3⟩) := by
    have hgrace : wait_for_running envDown false 1000 ⟨10, false, 3⟩ =
        .ok (.Success, ⟨10, false, 3⟩) :=
      wait_for_running_of_waitAux envDown false 1000 ⟨10, false, 3⟩ .Success 10
        (waitAux_success_exit envDown.running false 1000 10 10 (by omega) rfl)
    unfold execute_early_stop
    rw [show envDown.writeEn 10 false = .ok () from rfl, hgrace]
  have h := ((claim_C1 envDown 3 0 ⟨0, false, 0⟩ rfl rfl).1.2 (by omega) ⟨10, true, 3⟩).1 hwait
  rw [h, hstop]
  rfl

/-- Claim C3: a cancellation-capable invocation in which the subroutine
reaches natural completion — running observed `true` (whichever horizon the
start-wait was given) and then `false` — strictly before the cancellation
instant `s.time + d` returns the `TooLate` outcome, never the early-stopped
success outcome; `TooLate` is an `Except.ok` value distinct from
`EarlyStopResult.Success`.  (The post-check write and re-read must also
succeed, as in the code's completion tail.) -/
theorem claim_C3 (env : Env ε) (idx d : Nat) (s s3 s4 : CtrlState)
    (hIdx : env.writeIdx s.time idx = .ok ())
    (hEn : env.writeEn s.time true = .ok ())
    (hstart : (if 1000 < d
        then wait_for_running env true 1000 { s with index := idx, enable := true }
        else wait_for_running env true d { s with index := idx, enable := true })
      = .ok (.Success, s3))
    (hstop : (if s3.time + 60000 < s.time + d
        then wait_for_running env false 60000 s3
        else wait_for_running env false ((s.time + d) - s3.time) s3)
      = .ok (.Success, s4))
    (hbefore : s4.time < s.time + d)
    (hwr : env.writeEn s4.time false = .ok ())
    (hpost : env.running (s4.time + 100) = .ok false) :
    sr_single_early_stop env idx d s =
      .ok (EarlyStopResult.TooLate, { s4 with enable := false, time := s4.time + 100 }) ∧
    (∀ s5, sr_single_early_stop env idx d s ≠ .ok (EarlyStopResult.Success, s5)) ∧
    EarlyStopResult.TooLate ≠ EarlyStopResult.Success := by
  have hsub : (s.time + d) - s.time = d := by omega
  have hfin : finish_check env s4 = .ok { s4 with enable := false, time := s4.time + 100 } := by
    unfold finish_check
    rw [hwr, hpost]
  have hmain : sr_single_early_stop env idx d s =
      .ok (EarlyStopResult.TooLate, { s4 with enable := false, time := s4.time + 100 }) := by
    have htail : sr_early_stop_tail env (s.time + d) s3 =
        .ok (EarlyStopResult.TooLate, { s4 with enable := false, time := s4.time + 100 }) := by
      unfold sr_early_stop_tail
      by_cases hc : s3.time + 60000 < s.time + d
      · rw [if_pos hc] at hstop
        rw [if_pos hc]
        simp only [hstop, hfin, Except.map]
      · rw [if_neg hc] at hstop
        rw [if_neg hc]
        simp only [hstop, hfin, Except.map]
    unfold sr_single_early_stop
    by_cases hd : 1000 < d
    · rw [if_pos hd] at hstart
      rw [hIdx, hEn, if_pos (show s.time + 1000 < s.time + d by omega), hstart]
      exact htail
    · rw [if_neg hd] at hstart
      rw [hIdx, hEn, if_neg (show ¬ s.time + 1000 < s.time + d by omega), hsub, hstart]
      exact htail
  refine ⟨hmain, fun s5 h => ?_, by simp⟩
  rw [hmain] at h
  simp at h

/-- Witness for C3: with the pulse device (running `true` before instant 10,
`false` after) and `d = 2000`, the subroutine naturally completes at instant
10, long before the cancellation instant 2000, and the invocation returns
`TooLate`. -/
theorem claim_C3_witness :
    sr_single_early_stop envPulse 3 2000 ⟨0, false, 0⟩ =
      .ok (EarlyStopResult.TooLate, ⟨110, false, 3⟩) := by
  have hstart : wait_for_running envPulse true 1000 ⟨0, true, 3⟩ =
      .ok (.Success, ⟨0, true, 3⟩) :=
    wait_for_running_of_waitAux envPulse true 1000 ⟨0, true, 3⟩ .Success 0
      (waitAux_success_exit envPulse.running true 1000 0 0 (by omega) rfl)
  have hstop : wait_for_running envPulse false 2000 ⟨0, true, 3⟩ =
      .ok (.Success, ⟨10, true, 3⟩) := by
    have h1 : waitAux envPulse.running false 2000 0 0 =
        waitAux envPulse.running false 2000 0 (0 + 10) :=
      waitAux_sleep_step envPulse.running false 2000 0 0 true (by omega) rfl (by simp)
    have h2 : waitAux envPulse.running false 2000 0 (0 + 10) = .ok (.Success, 0 + 10) :=
      waitAux_success_exit envPulse.running false 2000 0 (0 + 10) (by omega) rfl
    exact wait_for_running_of_waitAux envPulse false 2000 ⟨0, true, 3⟩ .Success 10
      (by rw [h1, h2])
  exact (claim_C3 envPulse 3 2000 ⟨0, false, 0⟩ ⟨0, true, 3⟩ ⟨10, true, 3⟩ rfl rfl
    (by rw [if_pos (by decide)]; exact hstart)
    (by rw [if_neg (by decide)]; exact hstop)
    (by decide) rfl rfl).1

/-- Claim C6: after the stop-wait observes running = `false`, the controller
(`sr_single`, and the too-late path of `sr_single_early_stop` through
`sr_early_stop_tail`) writes enable=false, waits the 100 ms settle delay and
re-reads the running signal; reading `true` fails the invocation with the
distinct hardware-anomaly error `stillRunning` (different from every timeout,
grace and transport error), and only reading `false` lets the invocation
return its success outcome. -/
theorem claim_C6 (env : Env ε) (idx d : Nat) (s s3 s4 : CtrlState) :
    (env.writeEn s4.time false = .ok () → env.running (s4.time + 100) = .ok true →
      finish_check env s4 = .error CtrlError.stillRunning ∧
      (CtrlError.stillRunning : CtrlError ε) ≠ CtrlError.startTimeout ∧
      (CtrlError.stillRunning : CtrlError ε) ≠ CtrlError.stopTimeout ∧
      (CtrlError.stillRunning : CtrlError ε) ≠ CtrlError.stopIgnored ∧
      (∀ e, (CtrlError.stillRunning : CtrlError ε) ≠ CtrlError.transport e)) ∧
    (env.writeEn s4.time false = .ok () → env.running (s4.time + 100) = .ok false →
      finish_check env s4 = .ok { s4 with enable := false, time := s4.time + 100 }) ∧
    (env.writeIdx s.time idx = .ok () → env.writeEn s.time true = .ok () →
      wait_for_running env true 1000 { s with index := idx, enable := true } =
        .ok (.Success, s3) →
      wait_for_running env false 60000 s3 = .ok (.Success, s4) →
      sr_single env idx s = (finish_check env s4).map (fun s5 => ((), s5))) ∧
    (¬ s3.time + 60000 < s.time + d →
      wait_for_running env false ((s.time + d) - s3.time) s3 = .ok (.Success, s4) →
      sr_early_stop_tail env (s.time + d) s3 =
        (finish_check env s4).map (fun s5 => (EarlyStopResult.TooLate, s5))) := by
  refine ⟨fun hwr hread => ⟨?_, by simp, by simp, by simp, by simp⟩,
    fun hwr hread => ?_, fun hIdx hEn hstart hstop => ?_, fun hc hwait => ?_⟩
  · unfold finish_check
    rw [hwr, hread]
  · unfold finish_check
    rw [hwr, hread]
  · unfold sr_single
    simp only [hIdx, hEn, hstart, hstop]
  · unfold sr_early_stop_tail
    rw [if_neg hc]
    simp only [hwait]

/-- Witness for C6: with the pulse device, `sr_single` completes at instant
10 and the post-check (write enable=false, settle to instant 110, re-read
`false`) returns success. -/
theorem claim_C6_witness :
    sr_single envPulse 3 ⟨0, false, 0⟩ = .ok ((), ⟨110, false, 3⟩) := by
  have hstart : wait_for_running envPulse true 1000 ⟨0, true, 3⟩ =
      .ok (.Success, ⟨0, true, 3⟩) :=
    wait_for_running_of_waitAux envPulse true 1000 ⟨0, true, 3⟩ .Success 0
      (waitAux_success_exit envPulse.running true 1000 0 0 (by omega) rfl)
  have hstop : wait_for_running envPulse false 60000 ⟨0, true, 3⟩ =
      .ok (.Success, ⟨10, true, 3⟩) := by
    have h1 : waitAux envPulse.running false 60000 0 0 =
        waitAux envPulse.running false 60000 0 (0 + 10) :=
      waitAux_sleep_step envPulse.running false 60000 0 0 true (by omega) rfl (by simp)
    have h2 : waitAux envPulse.running false 60000 0 (0 + 10) = .ok (.Success, 0 + 10) :=
      waitAux_success_exit envPulse.running false 60000 0 (0 + 10) (by omega) rfl
    exact wait_for_running_of_waitAux envPulse false 60000 ⟨0, true, 3⟩ .Success 10
      (by rw [h1, h2])
  have h := claim_C6 envPulse 3 0 ⟨0, false, 0⟩ ⟨0, true, 3⟩ ⟨10, true, 3⟩
  rw [h.2.2.1 rfl rfl hstart hstop, h.2.1 rfl rfl]
  rfl

/-! ### Claims about the increasing-delay sweep. -/

/-- While the sweep is still iterating, the increment is at least 1 µs and
the delay after `n` iterations is at least `n` µs (so delays grow without
bound). -/
theorem sweep_run_invariant (f : Nat → Except ε EarlyStopResult) :
    ∀ n delay inc, sweepState f n = (delay, inc, SweepStatus.running) →
      1 ≤ inc ∧ n ≤ delay := by
  intro n
  induction n with
  | zero =>
      intro delay inc h
      simp only [sweepState, Prod.mk.injEq] at h
      omega
  | succ n ih =>
      intro delay inc h
      rcases hsw : sweepState f n with ⟨d0, i0, st0⟩
      have hstep : sweepState f (n + 1) = sweepStep f (d0, i0, st0) :=
        congrArg (sweepStep f) hsw
      rw [hstep] at h
      cases st0 with
      | running =>
          obtain ⟨hi0, hd0⟩ := ih d0 i0 hsw
          rcases hfe : f (d0 + i0) with e | r
          · simp [sweepStep, hfe, Prod.mk.injEq] at h
          · cases r with
            | Success =>
                simp only [sweepStep, hfe, Prod.mk.injEq] at h
                obtain ⟨h1, h2, _⟩ := h
                constructor
                · split at h2 <;> omega
                · omega
            | TooLate => simp [sweepStep, hfe, Prod.mk.injEq] at h
      | doneTooLate => simp [sweepStep, Prod.mk.injEq] at h
      | doneError e => simp [sweepStep, Prod.mk.injEq] at h

/-- Counterexample to claim C7 as stated: the sweep does *not* stop on the
first early-stop success.  With an invocation oracle that always returns
`EarlyStopResult.Success`, the first iteration's invocation (at delay 1 µs)
returns the early-stop success, yet after two iterations the sweep state is
still `running` with the delay advanced to 5 µs — a second invocation was
issued after the first success. -/
theorem claim_C7_counterexample :
    (fun _ : Nat => (Except.ok EarlyStopResult.Success : Except Unit EarlyStopResult)) 1 =
      Except.ok EarlyStopResult.Success ∧
    sweepState (fun _ : Nat => (Except.ok EarlyStopResult.Success : Except Unit EarlyStopResult))
      2 = (5, 16, SweepStatus.running) :=
  ⟨rfl, rfl⟩

/-- Claim C7 as amended: each iteration adds the current increment to the
delay and multiplies the increment by 4 while it is below the 2-second
ceiling (2000000 µs); a finished sweep performs no further invocation; the
sweep stops on the first `TooLate` outcome and on the first error, while an
early-stop success lets it continue to the next iteration; and it
terminates — never runs unbounded — whenever all sufficiently long delays
yield a non-`Success` outcome (delays grow without bound, see
`sweep_run_invariant`). -/
theorem claim_C7_amended (f : Nat → Except ε EarlyStopResult) (D : Nat) :
    (∀ n, (sweepState f n).2.2 ≠ SweepStatus.running →
        sweepState f (n + 1) = sweepState f n) ∧
    (∀ n delay inc, sweepState f n = (delay, inc, SweepStatus.running) →
        (f (delay + inc) = .ok EarlyStopResult.TooLate →
          sweepState f (n + 1) =
            (delay + inc, if inc < 2000000 then inc * 4 else inc,
              SweepStatus.doneTooLate)) ∧
        (∀ e, f (delay + inc) = .error e →
          sweepState f (n + 1) =
            (delay + inc, if inc < 2000000 then inc * 4 else inc,
              SweepStatus.doneError e)) ∧
        (f (delay + inc) = .ok EarlyStopResult.Success →
          sweepState f (n + 1) =
            (delay + inc, if inc < 2000000 then inc * 4 else inc,
              SweepStatus.running)) ∧
        1 ≤ inc ∧ n ≤ delay) ∧
    ((∀ d, D ≤ d → f d ≠ .ok EarlyStopResult.Success) →
        ∃ n, (sweepState f n).2.2 ≠ SweepStatus.running) := by
  refine ⟨fun n h => ?_, fun n delay inc h => ?_, fun hD => ?_⟩
  · rcases hsw : sweepState f n with ⟨d0, i0, st0⟩
    rw [hsw] at h
    have hstep : sweepState f (n + 1) = sweepStep f (d0, i0, st0) :=
      congrArg (sweepStep f) hsw
    cases st0 with
    | running => exact absurd rfl h
    | doneTooLate => rw [hstep]; simp [sweepStep]
    | doneError e => rw [hstep]; simp [sweepStep]
  · have hstep : sweepState f (n + 1) = sweepStep f (delay, inc, SweepStatus.running) :=
      h ▸ rfl
    obtain ⟨hi, hd⟩ := sweep_run_invariant f n delay inc h
    refine ⟨fun hf => ?_, fun e hf => ?_, fun hf => ?_, hi, hd⟩ <;>
      rw [hstep] <;> simp [sweepStep, hf]
  · by_contra hcon
    push_neg at hcon
    rcases hsw : sweepState f D with ⟨d0, i0, st0⟩
    have hst : st0 = SweepStatus.running := by
      have := hcon D
      rw [hsw] at this
      exact this
    subst hst
    obtain ⟨hi, hd⟩ := sweep_run_invariant f D d0 i0 hsw
    have hnext := hcon (D + 1)
    have hstep : sweepState f (D + 1) = sweepStep f (d0, i0, SweepStatus.running) :=
      hsw ▸ rfl
    have hfD := hD (d0 + i0) (by omega)
    rcases hfe : f (d0 + i0) with e | r
    · rw [hstep] at hnext
      simp [sweepStep, hfe] at hnext
    · cases r with
      | Success => exact hfD hfe
      | TooLate =>
          rw [hstep] at hnext
          simp [sweepStep, hfe] at hnext

/-- Witness for the amended C7 at a concrete oracle: every delay of at least
3 µs yields `TooLate`, and the sweep indeed reaches a non-running state. -/
theorem claim_C7_witness :
    ∃ n, (sweepState
        (fun d => if d < 3 then (Except.ok EarlyStopResult.Success : Except Unit EarlyStopResult)
          else Except.ok EarlyStopResult.TooLate) n).2.2 ≠ SweepStatus.running := by
  refine (claim_C7_amended
    (fun d => if d < 3 then (Except.ok EarlyStopResult.Success : Except Unit EarlyStopResult)
      else Except.ok EarlyStopResult.TooLate) 3).2.2 ?_
  intro d hd h
  rw [if_neg (by omega)] at h
  cases h

end RtuSim
